import Mathlib

set_option maxHeartbeats 1000000

namespace LLMDist

/- JSON-like value model for the manifest documents handled by
   src/modules/manifestBuilder.js.  Objects are ordered association lists,
   matching JavaScript insertion-order semantics of Object.entries. -/

inductive JVal where
  | str : String → JVal
  | num : Int → JVal
  | bool : Bool → JVal
  | null : JVal
  | arr : List JVal → JVal
  | obj : List (String × JVal) → JVal
deriving Repr

/-- Keys never interned by optimizeManifest (manifestBuilder.js, the
    `key === 'version' || key === 'generated' || key === 'rootPath'` test). -/
def excludedKeys : List String := ["version", "generated", "rootPath"]

/-- Index of a string already present in the table, as maintained by the
    stringMap of optimizeManifest (stringMap.get). -/
def tableIdx : List String → String → Option Nat
  | [], _ => none
  | t :: rest, s => if t = s then some 0 else (tableIdx rest s).map (· + 1)

/-- internString from optimizeManifest: re-uses an existing index or appends
    the string to the table (stringTable.push). -/
def internString (tbl : List String) (s : String) : List String × Nat :=
  match tableIdx tbl s with
  | some i => (tbl, i)
  | none => (tbl ++ [s], tbl.length)

/-- The reference object produced for an interned string: `{ $ref: i }`. -/
def refObj (i : Nat) : JVal := .obj [("$ref", .num (Int.ofNat i))]

mutual

/-- processObject from optimizeManifest (manifestBuilder.js): arrays map
    recursively; objects go through the per-field logic; primitives are
    returned unchanged.  The string table is threaded through as state. -/
def processVal (tbl : List String) : JVal → List String × JVal
  | .arr items =>
      let p := processItems tbl items
      (p.1, .arr p.2)
  | .obj fields =>
      let p := processFields tbl fields
      (p.1, .obj p.2)
  | v => (tbl, v)

/-- processObject on the items of an array (obj.map(item => processObject(item))). -/
def processItems (tbl : List String) : List JVal → List String × List JVal
  | [] => (tbl, [])
  | v :: rest =>
      let p := processVal tbl v
      let q := processItems p.1 rest
      (q.1, p.2 :: q.2)

/-- One step of the Object.entries loop of processObject: an excluded key
    passes its value through verbatim, a string value is interned, and any
    other value recurses through processObject.  (The source tests the key
    first and then the value; matching the value first is the same case
    split, since the excluded-key arm is identical in both branches.) -/
def processEntry (tbl : List String) : String × JVal → List String × JVal
  | (k, .str s) =>
      if k ∈ excludedKeys then (tbl, .str s)
      else ((internString tbl s).1, refObj (internString tbl s).2)
  | (k, v) =>
      if k ∈ excludedKeys then (tbl, v)
      else processVal tbl v

/-- The Object.entries loop of processObject over all fields of an object,
    threading the string table left to right. -/
def processFields (tbl : List String) : List (String × JVal) → List String × List (String × JVal)
  | [] => (tbl, [])
  | kv :: rest =>
      let p := processEntry tbl kv
      let q := processFields p.1 rest
      (q.1, (kv.1, p.2) :: q.2)

end

/-- Model of the JavaScript object spread `{ ...optimized, stringTable }`:
    an existing `stringTable` key is overwritten in place, otherwise the key
    is appended at the end. -/
def setField : List (String × JVal) → String → JVal → List (String × JVal)
  | [], k, v => [(k, v)]
  | (k', v') :: rest, k, v =>
      if k' = k then (k, v) :: rest else (k', v') :: setField rest k v

/-- optimizeManifest from manifestBuilder.js: intern every string reachable
    through non-excluded object fields, then attach the string table.
    (A manifest is an object; the catch-all arm is unreachable for manifests.) -/
def optimizeManifest (m : JVal) : JVal :=
  let p := processVal [] m
  match p.2 with
  | .obj fields => .obj (setField fields "stringTable" (.arr (p.1.map JVal.str)))
  | v => v

/-- Recognize the `{ $ref: i }` shape produced by internString. -/
def refIndex? : List (String × JVal) → Option Nat
  | [(k, .num n)] => if k = "$ref" then some n.toNat else none
  | _ => none

mutual

/-- Decoding a string-interned document against a table: every `{ $ref: i }`
    object is replaced by the i-th table entry.  This is the inverse reading
    of the transform described by the specification's round-trip law. -/
def decodeRefs (tbl : List String) : JVal → JVal
  | .arr items => .arr (decodeItems tbl items)
  | .obj fields =>
      match refIndex? fields with
      | some i => .str (tbl.getD i "")
      | none => .obj (decodeFields tbl fields)
  | v => v

/-- decodeRefs on the items of an array. -/
def decodeItems (tbl : List String) : List JVal → List JVal
  | [] => []
  | v :: rest => decodeRefs tbl v :: decodeItems tbl rest

/-- decodeRefs on the fields of a non-reference object. -/
def decodeFields (tbl : List String) : List (String × JVal) → List (String × JVal)
  | [] => []
  | (k, v) :: rest => (k, decodeRefs tbl v) :: decodeFields tbl rest

end

mutual

/-- A document is reference-free when no object in it uses the key "$ref".
    Every manifest produced by buildManifest / optimizeForLLM is of this kind;
    the predicate delimits the domain of the round-trip law. -/
def refFreeB : JVal → Bool
  | .arr items => refFreeItems items
  | .obj fields => refFreeFields fields
  | _ => true

/-- refFreeB on the items of an array. -/
def refFreeItems : List JVal → Bool
  | [] => true
  | v :: rest => refFreeB v && refFreeItems rest

/-- refFreeB on the fields of an object. -/
def refFreeFields : List (String × JVal) → Bool
  | [] => true
  | (k, v) :: rest => (k != "$ref") && refFreeB v && refFreeFields rest

end

/-- Association-list lookup of a field, mirroring JavaScript property access
    on the ordered objects of the model. -/
def lookupKey : List (String × JVal) → String → Option JVal
  | [], _ => none
  | (k', v) :: rest, k => if k' = k then some v else lookupKey rest k

/-- Concrete manifest fields exercising the round-trip law for the witness:
    an excluded key, a repeated string, and a string inside an array. -/
def c5Fields : List (String × JVal) :=
  [("version", .str "1.0.0"), ("rootPath", .str "/r"),
   ("files", .arr [.obj [("path", .str "a.js"), ("filename", .str "a.js")]])]

/-- Concrete object fields with an excluded key below the top level for the
    frame-effect witness. -/
def c10Fields : List (String × JVal) :=
  [("x", .str "hello"), ("rootPath", .str "/proj")]

/- Model of the type-annotation sublanguage handled by parser.js
   (extractTypeAnnotation / getTSTypeName). -/

inductive TSType where
  | tsString : TSType
  | tsNumber : TSType
  | tsBoolean : TSType
  | tsAny : TSType
  | tsVoid : TSType
  | tsNull : TSType
  | tsUndefined : TSType
  | tsNever : TSType
  | tsUnknown : TSType
  | tsArray : TSType → TSType
  | tsRefIdent : String → Option (List TSType) → TSType
  | tsRefQualified : TSType
  | tsUnion : List TSType → TSType
  | tsInter : List TSType → TSType
  | tsOther : TSType
deriving Repr

mutual

/-- getTSTypeName from parser.js: canonical string form of a TypeScript type
    node (keywords, arrays, generic references, unions, intersections);
    every unrecognized shape falls through to "any". -/
def getTSTypeName : TSType → String
  | .tsString => "string"
  | .tsNumber => "number"
  | .tsBoolean => "boolean"
  | .tsAny => "any"
  | .tsVoid => "void"
  | .tsNull => "null"
  | .tsUndefined => "undefined"
  | .tsNever => "never"
  | .tsUnknown => "unknown"
  | .tsArray e => getTSTypeName e ++ "[]"
  | .tsRefIdent n tp =>
      match tp with
      | some ps => n ++ "<" ++ String.intercalate ", " (getTSTypeNames ps) ++ ">"
      | none => n
  | .tsRefQualified => "any"
  | .tsUnion ts => String.intercalate " | " (getTSTypeNames ts)
  | .tsInter ts => String.intercalate " & " (getTSTypeNames ts)
  | .tsOther => "any"

/-- getTSTypeName mapped over a type-argument or union/intersection list. -/
def getTSTypeNames : List TSType → List String
  | [] => []
  | t :: rest => getTSTypeName t :: getTSTypeNames rest

end

/-- Node shapes that can reach extractTypeAnnotation: a TSTypeAnnotation
    wrapper, a Flow annotation wrapper, a bare TypeScript type node, or any
    other node, each with its optional `.typeAnnotation` field as payload. -/
inductive TNode where
  | tsTypeAnn : Option TNode → TNode
  | flowTypeAnn : Option TNode → TNode
  | tsTypeNode : TSType → TNode
  | otherNode : Option TNode → TNode
deriving Repr

/-- The `.typeAnnotation` field of a node (absent on bare type nodes). -/
def tyAnnField : TNode → Option TNode
  | .tsTypeAnn f => f
  | .flowTypeAnn f => f
  | .tsTypeNode _ => none
  | .otherNode f => f

/-- getTSTypeName applied to the content of a TSTypeAnnotation node: absent
    content gives "any" (the `if (!tsType)` guard) and a non-type node falls
    through every t.isTS* test of getTSTypeName to "any". -/
def getTSTypeNameNode : Option TNode → String
  | some (.tsTypeNode t) => getTSTypeName t
  | some _ => "any"
  | none => "any"

/-- extractTypeAnnotation from parser.js: an absent node resolves to "any";
    otherwise the node's `.typeAnnotation` field (falling back to the node
    itself) is dispatched — a TSTypeAnnotation goes to getTSTypeName, a Flow
    annotation resolves to "any", and every other shape resolves to "any". -/
def extractTypeAnn (x : Option TNode) : String :=
  match x with
  | none => "any"
  | some n =>
    match (tyAnnField n).getD n with
    | .tsTypeAnn f => getTSTypeNameNode f
    | .flowTypeAnn _ => "any"
    | _ => "any"

/-- Boolean form of the t.isTSTypeAnnotation test. -/
def isTSTypeAnnB : TNode → Bool
  | .tsTypeAnn _ => true
  | _ => false

/-- A source span as copied by extractLocation. -/
structure LocInfo where
  startLine : Nat
  startCol : Nat
  endLine : Nat
  endCol : Nat
deriving Repr, DecidableEq

/-- extractLocation from parser.js: null in, null out; otherwise the start and
    end line/column numbers are copied into a fresh record. -/
def extractLocation : Option LocInfo → Option LocInfo
  | none => none
  | some l => some ⟨l.startLine, l.startCol, l.endLine, l.endCol⟩

/- The Symbol / Dependency record model shared by parser.js and
   manifestBuilder.js.  A JavaScript key that may be absent is an Option. -/

/-- A property entry of an objectPattern/arrayPattern parameter record. -/
structure PProp where
  name : Option String
  type : Option String
deriving Repr, DecidableEq

/-- A parameter record as produced by extractParamInfo and consumed by
    simplifyParam. -/
structure SParam where
  name : Option String
  type : Option String
  hasDefault : Option Bool
  properties : Option (List PProp)
  elements : Option (List PProp)
deriving Repr, DecidableEq

/-- A class field record ({name, static, type, loc}). -/
structure SField where
  name : Option String
  type : Option String
  static : Option Bool
  loc : Option LocInfo
deriving Repr, DecidableEq

/-- A class method record ({name, static, kind, params, returnType, loc}). -/
structure SMethod where
  name : Option String
  static : Option Bool
  kind : Option String
  params : Option (List (Option SParam))
  returnType : Option String
  loc : Option LocInfo
deriving Repr, DecidableEq

/-- A Symbol record.  The `type` field holds the discriminator string that
    parser.js actually stores ("fn", "const", "class", "export");
    `extendsName` models the `extends` key (a Lean keyword). -/
structure SSymbol where
  name : Option String
  localName : Option String
  type : Option String
  params : Option (List (Option SParam))
  returnType : Option String
  fields : Option (List SField)
  methods : Option (List SMethod)
  extendsName : Option String
  loc : Option LocInfo
deriving Repr, DecidableEq

/-- An import specifier record ({type, local, imported?}); `localName` models
    the `local` key (a Lean keyword). -/
structure DepSpec where
  type : String
  localName : String
  imported : Option String
deriving Repr, DecidableEq

/-- A Dependency record: import dependencies carry specifiers, require
    dependencies only a source. -/
structure Dependency where
  type : String
  source : String
  specifiers : Option (List DepSpec)
deriving Repr, DecidableEq

/-- The per-file metadata record of parseFile: symbols and dependencies in
    push order, plus the hasDefaultExport flag. -/
structure Meta where
  symbols : List SSymbol
  dependencies : List Dependency
  hasDefaultExport : Bool
deriving Repr, DecidableEq

/-- The metadata record parseFile starts from. -/
def memp : Meta := ⟨[], [], false⟩

/-- Net effect of two consecutive traversal segments on the shared metadata
    record: pushes concatenate in visit order, and hasDefaultExport is set if
    either segment sets it. -/
def mjoin (a b : Meta) : Meta :=
  ⟨a.symbols ++ b.symbols, a.dependencies ++ b.dependencies,
   a.hasDefaultExport || b.hasDefaultExport⟩

/- The syntax-tree model: the node kinds parser.js dispatches on, with the
   child fields the Babel depth-first traversal descends into. -/

/-- An import specifier node (default, namespace, or named with its optional
    imported name). -/
inductive ISpec where
  | specDefault : String → ISpec
  | specNamespace : String → ISpec
  | specNamed : String → Option String → ISpec
deriving Repr

/-- An export specifier node of a bare named re-export:
    exported name, local name, and location. -/
inductive ESpec where
  | mk : String → String → Option LocInfo → ESpec
deriving Repr

mutual

/-- A property/member key: identifier, string literal, or computed. -/
inductive Key where
  | kid : String → Key
  | kstr : String → Key
  | kcomputed : Expr → Key

/-- A binding pattern: identifier (with type annotation), default-valued,
    object destructuring, array destructuring (with holes), rest element, or
    an unrecognized shape. -/
inductive Pat where
  | pid : String → Option TNode → Pat
  | assign : Pat → Expr → Pat
  | objPat : List ObjPatProp → Option TNode → Pat
  | arrPat : List (Option Pat) → Option TNode → Pat
  | rest : Pat → Option TNode → Pat
  | exotic : Pat

/-- An object-pattern property: a keyed property or a rest property. -/
inductive ObjPatProp where
  | prop : Key → Pat → ObjPatProp
  | restProp : Pat → ObjPatProp

/-- Expression nodes: identifiers, literals, calls, arrow functions, function
    expressions, and a generic node carrying its child expressions. -/
inductive Expr where
  | ident : String → Expr
  | strLit : String → Expr
  | numLit : Int → Expr
  | call : Expr → List Expr → Expr
  | arrowFn : List Pat → Option TNode → List Stmt → Expr
  | fnExpr : Option String → List Pat → Option TNode → List Stmt → Expr
  | otherExpr : List Expr → Expr

/-- A VariableDeclarator: target pattern, optional initializer, location. -/
inductive VDtor where
  | mk : Pat → Option Expr → Option LocInfo → VDtor

/-- A class-body member: method (key, static, kind, params, returnType, body,
    loc), property (key, static, typeAnnotation, value, loc), or another
    member kind that the handler skips. -/
inductive CMember where
  | method : Key → Bool → String → List Pat → Option TNode → List Stmt →
      Option LocInfo → CMember
  | property : Key → Bool → Option TNode → Option Expr → Option LocInfo → CMember
  | otherMember : CMember

/-- Statement nodes: the handler-bearing kinds of parser.js plus plain
    expression statements, blocks and returns for nesting. -/
inductive Stmt where
  | importDecl : String → List ISpec → Stmt
  | funcDecl : Option String → List Pat → Option TNode → List Stmt →
      Option LocInfo → Stmt
  | varDecl : List VDtor → Stmt
  | classDecl : Option String → Option Expr → List CMember → Option LocInfo → Stmt
  | exportNamed : Option Stmt → List ESpec → Stmt
  | exportDefault : Expr → Stmt
  | exprStmt : Expr → Stmt
  | block : List Stmt → Stmt
  | ret : Option Expr → Stmt

end

/-- The `.typeAnnotation` field of a pattern node (present on identifiers,
    object patterns, array patterns and rest elements). -/
def patTyAnn : Pat → Option TNode
  | .pid _ ta => ta
  | .assign _ _ => none
  | .objPat _ ta => ta
  | .arrPat _ ta => ta
  | .rest _ ta => ta
  | .exotic => none

/-- extractParamInfo from parser.js: dispatch in source order — identifier,
    AssignmentPattern, ObjectPattern, ArrayPattern, RestElement — with the
    `{name: 'unknown'}` fallback for every other shape. -/
def extractParamInfo : Pat → SParam
  | .pid n ta =>
      { name := some n, type := some (extractTypeAnn ta),
        hasDefault := none, properties := none, elements := none }
  | .assign left _ =>
      { name := some (match left with | .pid n _ => n | _ => "destructured"),
        type := some (extractTypeAnn (patTyAnn left)),
        hasDefault := some true, properties := none, elements := none }
  | .objPat props _ =>
      { name := some "objectPattern", type := none, hasDefault := none,
        properties := some (props.map (fun pr =>
          match pr with
          | .prop key value =>
              { name := some (match key with | .kid n => n | _ => "computed"),
                type := some (extractTypeAnn (patTyAnn value)) }
          | .restProp _ => { name := some "rest", type := none })),
        elements := none }
  | .arrPat elems _ =>
      { name := some "arrayPattern", type := none, hasDefault := none,
        properties := none,
        elements := some (elems.filterMap (fun e =>
          match e with
          | some (.pid n ta) =>
              some { name := some n, type := some (extractTypeAnn ta) }
          | _ => none)) }
  | .rest arg ta =>
      { name := some (match arg with | .pid n _ => "..." ++ n | _ => "...rest"),
        type := some (extractTypeAnn ta),
        hasDefault := none, properties := none, elements := none }
  | .exotic =>
      { name := some "unknown", type := none, hasDefault := none,
        properties := none, elements := none }

/-- The class-member key naming rule of the ClassDeclaration handler:
    identifier name, string-literal value, or the placeholder "computed". -/
def classKeyName : Key → String
  | .kid n => n
  | .kstr s => s
  | .kcomputed _ => "computed"

/-- The function Symbol pushed by the FunctionDeclaration handler and by the
    function-valued VariableDeclarator handler. -/
def fnSymbol (n : String) (ps : List Pat) (rt : Option TNode)
    (loc : Option LocInfo) : SSymbol :=
  { name := some n, localName := none, type := some "fn",
    params := some (ps.map (fun p => some (extractParamInfo p))),
    returnType := some (extractTypeAnn rt),
    fields := none, methods := none, extendsName := none,
    loc := extractLocation loc }

/-- The constant Symbol pushed for a non-function variable binding. -/
def constSymbol (n : String) (loc : Option LocInfo) : SSymbol :=
  { name := some n, localName := none, type := some "const",
    params := none, returnType := none, fields := none, methods := none,
    extendsName := none, loc := extractLocation loc }

/-- The method record built for a ClassMethod member. -/
def classMethodRec (key : Key) (st : Bool) (kind : String) (ps : List Pat)
    (rt : Option TNode) (loc : Option LocInfo) : SMethod :=
  { name := some (classKeyName key), static := some st, kind := some kind,
    params := some (ps.map (fun p => some (extractParamInfo p))),
    returnType := some (extractTypeAnn rt), loc := extractLocation loc }

/-- The field record built for a ClassProperty member. -/
def classFieldRec (key : Key) (st : Bool) (ta : Option TNode)
    (loc : Option LocInfo) : SField :=
  { name := some (classKeyName key), static := some st,
    type := some (extractTypeAnn ta), loc := extractLocation loc }

/-- The fields list collected by the ClassDeclaration handler's forEach over
    the class body (other member kinds are skipped). -/
def classFieldsOf : List CMember → List SField
  | [] => []
  | .property key st ta _ loc :: rest => classFieldRec key st ta loc :: classFieldsOf rest
  | _ :: rest => classFieldsOf rest

/-- The methods list collected by the same forEach, in body order. -/
def classMethodsOf : List CMember → List SMethod
  | [] => []
  | .method key st kind ps rt _ loc :: rest =>
      classMethodRec key st kind ps rt loc :: classMethodsOf rest
  | _ :: rest => classMethodsOf rest

/-- The class Symbol pushed by the ClassDeclaration handler; the superclass
    name is captured only when the superClass node is a bare identifier. -/
def classSymbol (n : String) (sup : Option Expr) (members : List CMember)
    (loc : Option LocInfo) : SSymbol :=
  { name := some n, localName := none, type := some "class",
    params := none, returnType := none,
    fields := some (classFieldsOf members),
    methods := some (classMethodsOf members),
    extendsName :=
      match sup with
      | some (.ident sn) => some sn
      | _ => none,
    loc := extractLocation loc }

/-- The export Symbol pushed per specifier of a bare named re-export. -/
def exportSymbol : ESpec → SSymbol
  | .mk exported localN loc =>
      { name := some exported, localName := some localN, type := some "export",
        params := none, returnType := none, fields := none, methods := none,
        extendsName := none, loc := extractLocation loc }

/-- The specifier classification of the ImportDeclaration handler; a named
    specifier's imported name falls back to the local name when absent. -/
def importSpecRec : ISpec → DepSpec
  | .specDefault l => { type := "default", localName := l, imported := none }
  | .specNamespace l => { type := "namespace", localName := l, imported := none }
  | .specNamed l imp => { type := "named", localName := l, imported := some (imp.getD l) }

/-- The import Dependency pushed by the ImportDeclaration handler. -/
def importDep (source : String) (specs : List ISpec) : Dependency :=
  { type := "import", source := source, specifiers := some (specs.map importSpecRec) }

/-- The require Dependency pushed by the CallExpression handler. -/
def requireDep (source : String) : Dependency :=
  { type := "require", source := source, specifiers := none }

/-- The CallExpression handler: a dependency is pushed exactly when the callee
    is the bare identifier `require` applied to one string-literal argument. -/
def requireEmit (callee : Expr) (args : List Expr) : Meta :=
  match callee, args with
  | .ident "require", [.strLit s] => ⟨[], [requireDep s], false⟩
  | _, _ => memp

/-- The VariableDeclarator handler: an identifier target with an initializer
    pushes a function Symbol for arrow/function initializers and a constant
    Symbol for every other initializer; other targets push nothing. -/
def dtorEmit : VDtor → Meta
  | .mk (.pid n _) (some (.arrowFn ps rt _)) loc => ⟨[fnSymbol n ps rt loc], [], false⟩
  | .mk (.pid n _) (some (.fnExpr _ ps rt _)) loc => ⟨[fnSymbol n ps rt loc], [], false⟩
  | .mk (.pid n _) (some _) loc => ⟨[constSymbol n loc], [], false⟩
  | _ => memp

mutual

/-- The Babel depth-first traversal of parseFile over a statement list,
    modelled by its net effect on the shared metadata record. -/
def visitStmts : List Stmt → Meta
  | [] => memp
  | s :: rest => mjoin (visitStmt s) (visitStmts rest)

/-- Handler dispatch plus recursion into children, per statement kind; each
    handler's pushes precede those of the node's children (pre-order). -/
def visitStmt : Stmt → Meta
  | .importDecl source specs => ⟨[], [importDep source specs], false⟩
  | .funcDecl id ps rt body loc =>
      mjoin
        (match id with
         | some n => ⟨[fnSymbol n ps rt loc], [], false⟩
         | none => memp)
        (mjoin (visitPats ps) (visitStmts body))
  | .varDecl ds => visitDtors ds
  | .classDecl id sup members loc =>
      mjoin
        (match id with
         | some n => ⟨[classSymbol n sup members loc], [], false⟩
         | none => memp)
        (mjoin (visitOptExpr sup) (visitMembers members))
  | .exportNamed decl specs =>
      mjoin
        (match decl with
         | some _ => memp
         | none => ⟨specs.map exportSymbol, [], false⟩)
        (visitOptStmt decl)
  | .exportDefault e => mjoin ⟨[], [], true⟩ (visitExpr e)
  | .exprStmt e => visitExpr e
  | .block ss => visitStmts ss
  | .ret e => visitOptExpr e

/-- Traversal into an optional declaration child. -/
def visitOptStmt : Option Stmt → Meta
  | none => memp
  | some s => visitStmt s

/-- Traversal over a declarator list. -/
def visitDtors : List VDtor → Meta
  | [] => memp
  | d :: rest => mjoin (visitDtor d) (visitDtors rest)

/-- One declarator: its handler effect, then its id and init children. -/
def visitDtor : VDtor → Meta
  | .mk id init loc =>
      mjoin (dtorEmit (.mk id init loc)) (mjoin (visitPat id) (visitOptExpr init))

/-- Traversal over the class body. -/
def visitMembers : List CMember → Meta
  | [] => memp
  | m :: rest => mjoin (visitMember m) (visitMembers rest)

/-- One class member's children: key, params and body for methods; key and
    value for properties. -/
def visitMember : CMember → Meta
  | .method key _ _ ps _ body _ =>
      mjoin (visitKey key) (mjoin (visitPats ps) (visitStmts body))
  | .property key _ _ value _ => mjoin (visitKey key) (visitOptExpr value)
  | .otherMember => memp

/-- A computed key's expression is traversed; other keys have no children. -/
def visitKey : Key → Meta
  | .kcomputed e => visitExpr e
  | _ => memp

/-- Traversal over an expression list. -/
def visitExprs : List Expr → Meta
  | [] => memp
  | e :: rest => mjoin (visitExpr e) (visitExprs rest)

/-- One expression: the CallExpression handler fires on calls; arrow and
    function expressions recurse into their params and bodies. -/
def visitExpr : Expr → Meta
  | .ident _ => memp
  | .strLit _ => memp
  | .numLit _ => memp
  | .call callee args =>
      mjoin (requireEmit callee args) (mjoin (visitExpr callee) (visitExprs args))
  | .arrowFn ps _ body => mjoin (visitPats ps) (visitStmts body)
  | .fnExpr _ ps _ body => mjoin (visitPats ps) (visitStmts body)
  | .otherExpr es => visitExprs es

/-- Traversal into an optional expression child. -/
def visitOptExpr : Option Expr → Meta
  | none => memp
  | some e => visitExpr e

/-- Traversal over a pattern list. -/
def visitPats : List Pat → Meta
  | [] => memp
  | p :: rest => mjoin (visitPat p) (visitPats rest)

/-- One pattern's children: default values and computed keys can hold
    arbitrary expressions, which the traversal descends into. -/
def visitPat : Pat → Meta
  | .pid _ _ => memp
  | .assign left right => mjoin (visitPat left) (visitExpr right)
  | .objPat props _ => visitProps props
  | .arrPat elems _ => visitOptPats elems
  | .rest arg _ => visitPat arg
  | .exotic => memp

/-- Traversal over object-pattern properties. -/
def visitProps : List ObjPatProp → Meta
  | [] => memp
  | p :: rest => mjoin (visitProp p) (visitProps rest)

/-- One object-pattern property's children. -/
def visitProp : ObjPatProp → Meta
  | .prop key value => mjoin (visitKey key) (visitPat value)
  | .restProp arg => visitPat arg

/-- Traversal over array-pattern elements (holes have no children). -/
def visitOptPats : List (Option Pat) → Meta
  | [] => memp
  | e :: rest => mjoin (visitOptPat e) (visitOptPats rest)

/-- Traversal into one optional array-pattern element. -/
def visitOptPat : Option Pat → Meta
  | none => memp
  | some p => visitPat p

end

/-- parseFile from parser.js over an already-parsed syntax tree (text parsing
    by the Babel front-end is the external collaborator): one depth-first
    traversal accumulating symbols and dependencies in pre-order. -/
def parseFile (ast : List Stmt) : Meta := visitStmts ast

/-- The `symbol.type === 'fn'` test. -/
def isFnSym (s : SSymbol) : Bool := s.type == some "fn"

/-- Names of the function-typed Symbols of a symbol list, in order. -/
def fnSymbolNames (l : List SSymbol) : List (Option String) :=
  (l.filter isFnSym).map SSymbol.name

/-- The binding name a declarator contributes to the function Symbols: its
    identifier name exactly when the initializer is an arrow or function
    expression. -/
def dtorFnName : VDtor → List (Option String)
  | .mk (.pid n _) (some (.arrowFn _ _ _)) _ => [some n]
  | .mk (.pid n _) (some (.fnExpr _ _ _ _)) _ => [some n]
  | _ => []

mutual

/-- The expected function-Symbol names of a statement list: every named
    function declaration at any depth, plus every identifier binding of an
    arrow/function expression, in depth-first pre-order. -/
def dfnStmts : List Stmt → List (Option String)
  | [] => []
  | s :: rest => dfnStmt s ++ dfnStmts rest

/-- Expected function-Symbol names contributed by one statement. -/
def dfnStmt : Stmt → List (Option String)
  | .importDecl _ _ => []
  | .funcDecl id ps _ body _ =>
      (match id with | some n => [some n] | none => []) ++ dfnPats ps ++ dfnStmts body
  | .varDecl ds => dfnDtors ds
  | .classDecl _ sup members _ => dfnOptExpr sup ++ dfnMembers members
  | .exportNamed decl _ => dfnOptStmt decl
  | .exportDefault e => dfnExpr e
  | .exprStmt e => dfnExpr e
  | .block ss => dfnStmts ss
  | .ret e => dfnOptExpr e

/-- Expected names of an optional declaration child. -/
def dfnOptStmt : Option Stmt → List (Option String)
  | none => []
  | some s => dfnStmt s

/-- Expected names of a declarator list. -/
def dfnDtors : List VDtor → List (Option String)
  | [] => []
  | d :: rest => dfnDtor d ++ dfnDtors rest

/-- Expected names of one declarator: its own binding contribution, then its
    children's. -/
def dfnDtor : VDtor → List (Option String)
  | .mk id init loc => dtorFnName (.mk id init loc) ++ dfnPat id ++ dfnOptExpr init

/-- Expected names of a class body. -/
def dfnMembers : List CMember → List (Option String)
  | [] => []
  | m :: rest => dfnMember m ++ dfnMembers rest

/-- Expected names of one class member. -/
def dfnMember : CMember → List (Option String)
  | .method key _ _ ps _ body _ => dfnKey key ++ dfnPats ps ++ dfnStmts body
  | .property key _ _ value _ => dfnKey key ++ dfnOptExpr value
  | .otherMember => []

/-- Expected names of a key. -/
def dfnKey : Key → List (Option String)
  | .kcomputed e => dfnExpr e
  | _ => []

/-- Expected names of an expression list. -/
def dfnExprs : List Expr → List (Option String)
  | [] => []
  | e :: rest => dfnExpr e ++ dfnExprs rest

/-- Expected names of one expression. -/
def dfnExpr : Expr → List (Option String)
  | .ident _ => []
  | .strLit _ => []
  | .numLit _ => []
  | .call callee args => dfnExpr callee ++ dfnExprs args
  | .arrowFn ps _ body => dfnPats ps ++ dfnStmts body
  | .fnExpr _ ps _ body => dfnPats ps ++ dfnStmts body
  | .otherExpr es => dfnExprs es

/-- Expected names of an optional expression. -/
def dfnOptExpr : Option Expr → List (Option String)
  | none => []
  | some e => dfnExpr e

/-- Expected names of a pattern list. -/
def dfnPats : List Pat → List (Option String)
  | [] => []
  | p :: rest => dfnPat p ++ dfnPats rest

/-- Expected names of one pattern. -/
def dfnPat : Pat → List (Option String)
  | .pid _ _ => []
  | .assign left right => dfnPat left ++ dfnExpr right
  | .objPat props _ => dfnProps props
  | .arrPat elems _ => dfnOptPats elems
  | .rest arg _ => dfnPat arg
  | .exotic => []

/-- Expected names of object-pattern properties. -/
def dfnProps : List ObjPatProp → List (Option String)
  | [] => []
  | p :: rest => dfnProp p ++ dfnProps rest

/-- Expected names of one object-pattern property. -/
def dfnProp : ObjPatProp → List (Option String)
  | .prop key value => dfnKey key ++ dfnPat value
  | .restProp arg => dfnPat arg

/-- Expected names of array-pattern elements. -/
def dfnOptPats : List (Option Pat) → List (Option String)
  | [] => []
  | e :: rest => dfnOptPat e ++ dfnOptPats rest

/-- Expected names of one optional array-pattern element. -/
def dfnOptPat : Option Pat → List (Option String)
  | none => []
  | some p => dfnPat p

end

/-- The program `const x = require('path')`. -/
def progReq : List Stmt :=
  [.varDecl [.mk (.pid "x" none) (some (.call (.ident "require") [.strLit "path"])) none]]

/-- The program `export function add(a, b) { return a + b; }`. -/
def progAdd : List Stmt :=
  [.exportNamed
    (some (.funcDecl (some "add") [.pid "a" none, .pid "b" none] none
      [.ret (some (.otherExpr [.ident "a", .ident "b"]))] none))
    []]

/-- A named function declaration nested inside another function's body. -/
def progNest : List Stmt :=
  [.funcDecl (some "outer") [] none
    [.funcDecl (some "inner") [] none [] none] none]

/- Model of buildManifest from manifestBuilder.js. -/

/-- The error raised for invalid builder input (UserInputError). -/
inductive BuildErr where
  | userInput : String → BuildErr
deriving Repr, DecidableEq

/-- The per-file metadata as the builder receives it: the builder tolerates
    absent symbols/dependencies/hasDefaultExport (the `|| []` and `|| false`
    defaulting). -/
structure PMeta where
  symbols : Option (List SSymbol)
  dependencies : Option (List Dependency)
  hasDefaultExport : Option Bool
deriving Repr, DecidableEq

/-- One element of the parsedFiles input: {filePath, metadata}. -/
structure FileResult where
  filePath : String
  metadata : PMeta
deriving Repr, DecidableEq

/-- The per-file manifest record the builder assembles. -/
structure FileManifest where
  path : String
  filename : String
  symbols : List SSymbol
  dependencies : List Dependency
  hasDefaultExport : Bool
deriving Repr, DecidableEq

/-- The per-kind symbol counters of the manifest statistics. -/
structure TypeStats where
  functions : Nat
  classes : Nat
  constants : Nat
  exports : Nat
deriving Repr, DecidableEq

/-- The roll-up statistics record of the manifest. -/
structure BStats where
  totalFiles : Nat
  totalSymbols : Nat
  totalDependencies : Nat
  typeStats : TypeStats
deriving Repr, DecidableEq

/-- The project manifest record built by buildManifest. -/
structure BManifest where
  version : String
  generated : String
  rootPath : String
  files : List FileManifest
  stats : BStats
deriving Repr, DecidableEq

/-- The buildManifest input: an array of file results, or any non-array value
    (the Array.isArray test). -/
inductive BInput where
  | arr : List FileResult → BInput
  | notArr : BInput

/-- The FileManifest assembled for one file result; `path.relative` and
    `path.basename` belong to the external path collaborator and are passed
    in as functions. -/
def mkFileManifest (rel : String → String → String) (base : String → String)
    (rootPath : String) (fd : FileResult) : FileManifest :=
  { path := rel rootPath fd.filePath, filename := base fd.filePath,
    symbols := fd.metadata.symbols.getD [],
    dependencies := fd.metadata.dependencies.getD [],
    hasDefaultExport := fd.metadata.hasDefaultExport.getD false }

/-- The per-symbol typeStats conditional chain of buildManifest. -/
def addTypeCount (ts : TypeStats) (s : SSymbol) : TypeStats :=
  if s.type = some "fn" then { ts with functions := ts.functions + 1 }
  else if s.type = some "class" then { ts with classes := ts.classes + 1 }
  else if s.type = some "const" then { ts with constants := ts.constants + 1 }
  else if s.type = some "export" then { ts with exports := ts.exports + 1 }
  else ts

/-- The body of the forEach over parsedFiles: push the file manifest and
    update the running totals and per-kind counts. -/
def addFile (rel : String → String → String) (base : String → String)
    (rootPath : String) (acc : BManifest) (fd : FileResult) : BManifest :=
  let fm := mkFileManifest rel base rootPath fd
  { acc with
    files := acc.files ++ [fm],
    stats := { acc.stats with
      totalSymbols := acc.stats.totalSymbols + fm.symbols.length,
      totalDependencies := acc.stats.totalDependencies + fm.dependencies.length,
      typeStats := fm.symbols.foldl addTypeCount acc.stats.typeStats } }

/-- The initial manifest skeleton of buildManifest; the generation timestamp
    (new Date().toISOString()) is the external clock's value nowISO. -/
def initManifest (nowISO rootPath : String) (n : Nat) : BManifest :=
  { version := "1.0.0", generated := nowISO, rootPath := rootPath,
    files := [],
    stats := { totalFiles := n, totalSymbols := 0, totalDependencies := 0,
               typeStats := { functions := 0, classes := 0,
                              constants := 0, exports := 0 } } }

/-- buildManifest from manifestBuilder.js: reject a non-array or empty input
    with UserInputError('No files to process'); otherwise fold the file
    results, in order, into the initial skeleton. -/
def buildManifest (rel : String → String → String) (base : String → String)
    (nowISO : String) (parsedFiles : BInput) (rootPath : String) :
    Except BuildErr BManifest :=
  match parsedFiles with
  | .notArr => .error (.userInput "No files to process")
  | .arr l =>
      if l.isEmpty then .error (.userInput "No files to process")
      else .ok (l.foldl (addFile rel base rootPath) (initManifest nowISO rootPath l.length))

/- Model of optimizeForLLM / simplifySymbol / simplifyParam from
   manifestBuilder.js.  The domain is the manifest-shaped records with
   optional fields, so that the projection can be applied to its own output. -/

/-- A file record as optimizeForLLM reads it. -/
structure LFile where
  path : Option String
  filename : Option String
  symbols : List SSymbol
  dependencies : Option (List Dependency)
  hasDefaultExport : Option Bool
deriving Repr, DecidableEq

/-- A manifest record as optimizeForLLM reads it. -/
structure LManifest where
  version : Option String
  generated : Option String
  rootPath : Option String
  files : List LFile
  stats : Option BStats
deriving Repr, DecidableEq

/-- JavaScript truthiness of an optional string field ("" is falsy). -/
def truthyStr : Option String → Bool
  | some s => s != ""
  | none => false

/-- simplifyParam from manifestBuilder.js: copy name and type, keep hasDefault
    when truthy, and project objectPattern properties / arrayPattern elements
    to name-and-type pairs; a null parameter passes through as null. -/
def simplifyParam : Option SParam → Option SParam
  | none => none
  | some p =>
      let s0 : SParam :=
        { name := p.name, type := p.type, hasDefault := none,
          properties := none, elements := none }
      let s1 := if p.hasDefault = some true then { s0 with hasDefault := some true } else s0
      let projProps := (p.properties.getD []).map (fun pr => { name := pr.name, type := pr.type : PProp })
      let projElems := (p.elements.getD []).map (fun pr => { name := pr.name, type := pr.type : PProp })
      let s2 :=
        if p.name = some "objectPattern" ∧ p.properties.isSome then
          { s1 with properties := some projProps }
        else s1
      let s3 :=
        if p.name = some "arrayPattern" ∧ p.elements.isSome then
          { s2 with elements := some projElems }
        else s2
      some s3

/-- The field projection inside simplifySymbol's class arm:
    {name, type, static}. -/
def simplifyFieldRec (f : SField) : SField :=
  { name := f.name, type := f.type, static := f.static, loc := none }

/-- The method projection inside simplifySymbol's class arm:
    {name, kind, static, params (defaulting to []), returnType}. -/
def simplifyMethodRec (m : SMethod) : SMethod :=
  { name := m.name, kind := m.kind, static := m.static,
    params := some ((m.params.getD []).map simplifyParam),
    returnType := m.returnType, loc := none }

/-- simplifySymbol from manifestBuilder.js: keep name and the discriminator,
    then the variant fields — fn: params (defaulting to [] when absent) and
    returnType; class: projected fields/methods and extends when truthy;
    export: localName; everything else, including loc, is dropped. -/
def simplifySymbol (s : SSymbol) : SSymbol :=
  let base : SSymbol :=
    { name := s.name, localName := none, type := s.type, params := none,
      returnType := none, fields := none, methods := none,
      extendsName := none, loc := none }
  if s.type = some "fn" then
    { base with
      params := some ((s.params.getD []).map simplifyParam),
      returnType := s.returnType }
  else if s.type = some "class" then
    { base with
      fields := some ((s.fields.getD []).map simplifyFieldRec),
      methods := some ((s.methods.getD []).map simplifyMethodRec),
      extendsName := if truthyStr s.extendsName then s.extendsName else none }
  else if s.type = some "export" then
    { base with localName := s.localName }
  else base

/-- The file projection of optimizeForLLM:
    {path, symbols simplified, dependencies, hasDefaultExport}. -/
def simplifyFile (f : LFile) : LFile :=
  { path := f.path, filename := none,
    symbols := f.symbols.map simplifySymbol,
    dependencies := f.dependencies,
    hasDefaultExport := f.hasDefaultExport }

/-- optimizeForLLM from manifestBuilder.js: keep version, project each file;
    filename, generated, rootPath and stats are dropped. -/
def optimizeForLLM (m : LManifest) : LManifest :=
  { version := m.version, generated := none, rootPath := none,
    files := m.files.map simplifyFile,
    stats := none }

/-- A concrete file result for the C4 witness. -/
def c4File : FileResult :=
  { filePath := "/r/a.js",
    metadata :=
      { symbols := some [constSymbol "x" none],
        dependencies := some [requireDep "path"],
        hasDefaultExport := none } }

/-- The manifest buildManifest produces
    for [c4File] with identity-like path collaborators. -/
def c4Manifest : BManifest :=
  { version := "1.0.0", generated := "t0", rootPath := "/r",
    files := [{ path := "/r/a.js", filename := "/r/a.js",
                symbols := [constSymbol "x" none],
                dependencies := [requireDep "path"],
                hasDefaultExport := false }],
    stats := { totalFiles := 1, totalSymbols := 1, totalDependencies := 1,
               typeStats := { functions := 0, classes := 0,
                              constants := 1, exports := 0 } } }

/-- Table extension order: the string table only ever grows by appending. -/
def tblLe (a b : List String) : Prop := ∃ t, b = a ++ t

theorem tblLe_refl (a : List String) : tblLe a a := ⟨[], by simp⟩

theorem tblLe_trans {a b c : List String} (h₁ : tblLe a b) (h₂ : tblLe b c) : tblLe a c := by
  obtain ⟨t, rfl⟩ := h₁
  obtain ⟨u, rfl⟩ := h₂
  exact ⟨t ++ u, by simp⟩

theorem tblLe_append (a t : List String) : tblLe a (a ++ t) := ⟨t, rfl⟩

theorem getD_mono : ∀ (a : List String) {b : List String} (i : Nat), tblLe a b →
    i < a.length → b.getD i "" = a.getD i ""
  | [], _, i, _, h => absurd h (by simp)
  | x :: rest, b, i, hle, h => by
    obtain ⟨t, rfl⟩ := hle
    match i with
    | 0 => simp [List.getD]
    | Nat.succ j =>
      have hj : j < rest.length := by simpa using h
      simpa [List.getD] using getD_mono rest j (tblLe_append rest t) hj

theorem tableIdx_spec : ∀ (tbl : List String) (s : String) (i : Nat),
    tableIdx tbl s = some i → i < tbl.length ∧ tbl.getD i "" = s
  | [], s, i, h => by simp [tableIdx] at h
  | t :: rest, s, i, h => by
    by_cases ht : t = s
    · simp [tableIdx, ht] at h
      subst h
      simp [List.getD, ht]
    · simp [tableIdx, ht] at h
      obtain ⟨j, hj, rfl⟩ := h
      obtain ⟨h1, h2⟩ := tableIdx_spec rest s j hj
      exact ⟨by simpa using h1, by simpa [List.getD] using h2⟩

theorem internString_le (tbl : List String) (s : String) :
    tblLe tbl (internString tbl s).1 := by
  unfold internString
  match h : tableIdx tbl s with
  | some i => exact tblLe_refl tbl
  | none => exact tblLe_append tbl [s]

theorem internString_get (tbl : List String) (s : String) :
    (internString tbl s).2 < (internString tbl s).1.length ∧
    (internString tbl s).1.getD (internString tbl s).2 "" = s := by
  unfold internString
  match h : tableIdx tbl s with
  | some i => exact tableIdx_spec tbl s i h
  | none =>
    constructor
    · simp
    · simp [List.getD_append_right]


theorem refIndex?_none {k : String} (hk : k ≠ "$ref") (x : JVal) (t : List (String × JVal)) :
    refIndex? ((k, x) :: t) = none := by
  cases t <;> cases x <;> simp [refIndex?, hk]

theorem refFreeFields_cons {k : String} {v : JVal} {rest : List (String × JVal)}
    (h : refFreeFields ((k, v) :: rest) = true) :
    k ≠ "$ref" ∧ refFreeB v = true ∧ refFreeFields rest = true := by
  rw [refFreeFields] at h
  simp only [Bool.and_eq_true, bne_iff_ne] at h
  exact ⟨h.1.1, h.1.2, h.2⟩

theorem refFreeItems_cons {v : JVal} {rest : List JVal}
    (h : refFreeItems (v :: rest) = true) :
    refFreeB v = true ∧ refFreeItems rest = true := by
  rw [refFreeItems] at h
  simpa only [Bool.and_eq_true] using h

mutual

theorem processVal_le (tbl : List String) (v : JVal) : tblLe tbl (processVal tbl v).1 := by
  match v with
  | .str s => simpa [processVal] using tblLe_refl tbl
  | .num n => simpa [processVal] using tblLe_refl tbl
  | .bool b => simpa [processVal] using tblLe_refl tbl
  | .null => simpa [processVal] using tblLe_refl tbl
  | .arr items => simpa [processVal] using processItems_le tbl items
  | .obj fields => simpa [processVal] using processFields_le tbl fields
termination_by sizeOf v

theorem processItems_le (tbl : List String) (items : List JVal) :
    tblLe tbl (processItems tbl items).1 := by
  match items with
  | [] => simpa [processItems] using tblLe_refl tbl
  | v :: rest =>
    have h1 := processVal_le tbl v
    have h2 := processItems_le (processVal tbl v).1 rest
    simpa [processItems] using tblLe_trans h1 h2
termination_by sizeOf items

theorem processEntry_le (tbl : List String) (k : String) (v : JVal) :
    tblLe tbl (processEntry tbl (k, v)).1 := by
  by_cases hk : k ∈ excludedKeys
  · cases v <;> simpa [processEntry, hk] using tblLe_refl tbl
  · match v with
    | .str s => simpa [processEntry, hk] using internString_le tbl s
    | .num n => simpa [processEntry, hk] using processVal_le tbl (.num n)
    | .bool b => simpa [processEntry, hk] using processVal_le tbl (.bool b)
    | .null => simpa [processEntry, hk] using processVal_le tbl .null
    | .arr items => simpa [processEntry, hk] using processVal_le tbl (.arr items)
    | .obj fs => simpa [processEntry, hk] using processVal_le tbl (.obj fs)
termination_by sizeOf v + 1

theorem processFields_le (tbl : List String) (fields : List (String × JVal)) :
    tblLe tbl (processFields tbl fields).1 := by
  match fields with
  | [] => simpa [processFields] using tblLe_refl tbl
  | (k, v) :: rest =>
    have h1 := processEntry_le tbl k v
    have h2 := processFields_le (processEntry tbl (k, v)).1 rest
    simpa [processFields] using tblLe_trans h1 h2
termination_by sizeOf fields

end

mutual

theorem decodeRefs_id (tbl : List String) (v : JVal) (h : refFreeB v = true) :
    decodeRefs tbl v = v := by
  match v with
  | .str s => simp [decodeRefs]
  | .num n => simp [decodeRefs]
  | .bool b => simp [decodeRefs]
  | .null => simp [decodeRefs]
  | .arr items =>
    have hi : refFreeItems items = true := by simpa [refFreeB] using h
    simp [decodeRefs, decodeItems_id tbl items hi]
  | .obj fields =>
    have hf : refFreeFields fields = true := by simpa [refFreeB] using h
    match fields, hf with
    | [], _ => simp [decodeRefs, refIndex?, decodeFields]
    | (k, w) :: rest, hf =>
      obtain ⟨hk, hw, hrest⟩ := refFreeFields_cons hf
      simp [decodeRefs, refIndex?_none hk, decodeFields_id tbl ((k, w) :: rest) hf]
termination_by sizeOf v

theorem decodeItems_id (tbl : List String) (items : List JVal) (h : refFreeItems items = true) :
    decodeItems tbl items = items := by
  match items with
  | [] => simp [decodeItems]
  | v :: rest =>
    obtain ⟨hv, hrest⟩ := refFreeItems_cons h
    simp [decodeItems, decodeRefs_id tbl v hv, decodeItems_id tbl rest hrest]
termination_by sizeOf items

theorem decodeFields_id (tbl : List String) (fields : List (String × JVal))
    (h : refFreeFields fields = true) : decodeFields tbl fields = fields := by
  match fields with
  | [] => simp [decodeFields]
  | (k, v) :: rest =>
    obtain ⟨hk, hv, hrest⟩ := refFreeFields_cons h
    simp [decodeFields, decodeRefs_id tbl v hv, decodeFields_id tbl rest hrest]
termination_by sizeOf fields

end

mutual

theorem decode_processVal (tbl tbl' : List String) (v : JVal) (hrf : refFreeB v = true)
    (hpre : tblLe (processVal tbl v).1 tbl') :
    decodeRefs tbl' (processVal tbl v).2 = v := by
  match v with
  | .str s => simp [processVal, decodeRefs]
  | .num n => simp [processVal, decodeRefs]
  | .bool b => simp [processVal, decodeRefs]
  | .null => simp [processVal, decodeRefs]
  | .arr items =>
    have hi : refFreeItems items = true := by simpa [refFreeB] using hrf
    have hp : tblLe (processItems tbl items).1 tbl' := by simpa [processVal] using hpre
    simp [processVal, decodeRefs, decode_processItems tbl tbl' items hi hp]
  | .obj fields =>
    have hf : refFreeFields fields = true := by simpa [refFreeB] using hrf
    have hp : tblLe (processFields tbl fields).1 tbl' := by simpa [processVal] using hpre
    have hfe := decode_processFields tbl tbl' fields hf hp
    match fields, hf, hfe with
    | [], _, _ => simp [processVal, processFields, decodeRefs, refIndex?, decodeFields]
    | (k, w) :: rest, hf, hfe =>
      obtain ⟨hk, hw, hrest⟩ := refFreeFields_cons hf
      simp only [processVal, processFields] at hfe ⊢
      simp only [decodeRefs, refIndex?_none hk]
      exact congrArg JVal.obj hfe
termination_by sizeOf v

theorem decode_processItems (tbl tbl' : List String) (items : List JVal)
    (hrf : refFreeItems items = true)
    (hpre : tblLe (processItems tbl items).1 tbl') :
    decodeItems tbl' (processItems tbl items).2 = items := by
  match items with
  | [] => simp [processItems, decodeItems]
  | v :: rest =>
    obtain ⟨hv, hrest⟩ := refFreeItems_cons hrf
    have hple : tblLe (processItems (processVal tbl v).1 rest).1 tbl' := by
      simpa [processItems] using hpre
    have hvle : tblLe (processVal tbl v).1 tbl' :=
      tblLe_trans (processItems_le (processVal tbl v).1 rest) hple
    simp [processItems, decodeItems, decode_processVal tbl tbl' v hv hvle,
      decode_processItems (processVal tbl v).1 tbl' rest hrest hple]
termination_by sizeOf items

theorem decode_processEntry (tbl tbl' : List String) (k : String) (v : JVal)
    (hrf : refFreeB v = true)
    (hpre : tblLe (processEntry tbl (k, v)).1 tbl') :
    decodeRefs tbl' (processEntry tbl (k, v)).2 = v := by
  by_cases hk : k ∈ excludedKeys
  · have he : processEntry tbl (k, v) = (tbl, v) := by
      cases v <;> simp [processEntry, hk]
    rw [he]
    exact decodeRefs_id tbl' v hrf
  · match v with
    | .str s =>
      have hget := internString_get tbl s
      have hpre' : tblLe (internString tbl s).1 tbl' := by
        simpa [processEntry, hk] using hpre
      have hmono := getD_mono (internString tbl s).1 (internString tbl s).2 hpre' hget.1
      have hval : tbl'.getD (internString tbl s).2 "" = s := hmono.trans hget.2
      simpa [processEntry, hk, decodeRefs, refObj, refIndex?, List.getD] using hval
    | .num n =>
      have hpre' : tblLe (processVal tbl (JVal.num n)).1 tbl' := by
        simpa [processEntry, hk] using hpre
      simpa [processEntry, hk] using decode_processVal tbl tbl' (.num n) hrf hpre'
    | .bool b =>
      have hpre' : tblLe (processVal tbl (JVal.bool b)).1 tbl' := by
        simpa [processEntry, hk] using hpre
      simpa [processEntry, hk] using decode_processVal tbl tbl' (.bool b) hrf hpre'
    | .null =>
      have hpre' : tblLe (processVal tbl JVal.null).1 tbl' := by
        simpa [processEntry, hk] using hpre
      simpa [processEntry, hk] using decode_processVal tbl tbl' .null hrf hpre'
    | .arr items =>
      have hpre' : tblLe (processVal tbl (JVal.arr items)).1 tbl' := by
        simpa [processEntry, hk] using hpre
      simpa [processEntry, hk] using decode_processVal tbl tbl' (.arr items) hrf hpre'
    | .obj fs =>
      have hpre' : tblLe (processVal tbl (JVal.obj fs)).1 tbl' := by
        simpa [processEntry, hk] using hpre
      simpa [processEntry, hk] using decode_processVal tbl tbl' (.obj fs) hrf hpre'
termination_by sizeOf v + 1

theorem decode_processFields (tbl tbl' : List String) (fields : List (String × JVal))
    (hrf : refFreeFields fields = true)
    (hpre : tblLe (processFields tbl fields).1 tbl') :
    decodeFields tbl' (processFields tbl fields).2 = fields := by
  match fields with
  | [] => simp [processFields, decodeFields]
  | (k, v) :: rest =>
    obtain ⟨hk, hv, hrest⟩ := refFreeFields_cons hrf
    have hple : tblLe (processFields (processEntry tbl (k, v)).1 rest).1 tbl' := by
      simpa [processFields] using hpre
    have hele : tblLe (processEntry tbl (k, v)).1 tbl' :=
      tblLe_trans (processFields_le (processEntry tbl (k, v)).1 rest) hple
    have hde := decode_processEntry tbl tbl' k v hv hele
    have hdr := decode_processFields (processEntry tbl (k, v)).1 tbl' rest hrest hple
    simp [processFields, decodeFields, hde, hdr]
termination_by sizeOf fields

end


theorem processEntry_excl (tbl : List String) {k : String} (v : JVal)
    (hk : k ∈ excludedKeys) : processEntry tbl (k, v) = (tbl, v) := by
  cases v <;> simp [processEntry, hk]

theorem processFields_length : ∀ (tbl : List String) (fields : List (String × JVal)),
    ((processFields tbl fields).2).length = fields.length
  | tbl, [] => by simp [processFields]
  | tbl, kv :: rest => by
    simp [processFields, processFields_length (processEntry tbl kv).1 rest]

theorem processFields_get_excluded : ∀ (tbl : List String) (fields : List (String × JVal))
    (i : Nat) (k : String) (v : JVal), fields[i]? = some (k, v) → k ∈ excludedKeys →
    ((processFields tbl fields).2)[i]? = some (k, v)
  | tbl, [], i, k, v, h, hk => by simp at h
  | tbl, (k', v') :: rest, 0, k, v, h, hk => by
    simp at h
    obtain ⟨rfl, rfl⟩ := h
    simp [processFields, processEntry_excl tbl v' hk]
  | tbl, (k', v') :: rest, Nat.succ i, k, v, h, hk => by
    simp at h
    simp [processFields,
      processFields_get_excluded (processEntry tbl (k', v')).1 rest i k v h hk]

theorem processFields_lookup_excluded : ∀ (tbl : List String) (fields : List (String × JVal))
    (k : String), k ∈ excludedKeys →
    lookupKey ((processFields tbl fields).2) k = lookupKey fields k
  | tbl, [], k, hk => by simp [processFields, lookupKey]
  | tbl, (k', v') :: rest, k, hk => by
    by_cases he : k' = k
    · subst he
      simp [processFields, lookupKey, processEntry_excl tbl v' hk]
    · simp [processFields, lookupKey, he,
        processFields_lookup_excluded (processEntry tbl (k', v')).1 rest k hk]

theorem processFields_lookup_none : ∀ (tbl : List String) (fields : List (String × JVal))
    (k : String), lookupKey fields k = none →
    lookupKey ((processFields tbl fields).2) k = none
  | tbl, [], k, h => by simp [processFields, lookupKey]
  | tbl, (k', v') :: rest, k, h => by
    by_cases he : k' = k
    · simp [lookupKey, he] at h
    · simp [lookupKey, he] at h
      simp [processFields, lookupKey, he,
        processFields_lookup_none (processEntry tbl (k', v')).1 rest k h]

theorem setField_append : ∀ (fields : List (String × JVal)) (k : String) (v : JVal),
    lookupKey fields k = none → setField fields k v = fields ++ [(k, v)]
  | [], k, v, h => by simp [setField]
  | (k', v') :: rest, k, v, h => by
    by_cases he : k' = k
    · simp [lookupKey, he] at h
    · simp [lookupKey, he] at h
      simp [setField, he, setField_append rest k v h]

/-- C5: string interning is lossless.  For every manifest object that is
    reference-free and carries no `stringTable` key (true of every manifest the
    pipeline builds), replacing each `{$ref: i}` in the interned output by the
    i-th entry of the produced stringTable reconstructs the input exactly, the
    optimizeManifest output is the interned object with the stringTable
    attached, and the excluded top-level fields version / generated / rootPath
    are carried through untouched. -/
theorem c5_theorem (fields : List (String × JVal))
    (h1 : refFreeFields fields = true)
    (h2 : lookupKey fields "stringTable" = none) :
    decodeRefs (processVal [] (.obj fields)).1 (processVal [] (.obj fields)).2 = .obj fields ∧
    optimizeManifest (.obj fields) =
      .obj ((processFields [] fields).2 ++
        [("stringTable", .arr ((processFields [] fields).1.map JVal.str))]) ∧
    ∀ k, k ∈ excludedKeys → lookupKey (processFields [] fields).2 k = lookupKey fields k := by
  refine ⟨?_, ?_, ?_⟩
  · exact decode_processVal [] (processVal [] (.obj fields)).1 (.obj fields)
      (by simpa [refFreeB] using h1) (tblLe_refl _)
  · have hnone : lookupKey (processFields [] fields).2 "stringTable" = none :=
      processFields_lookup_none [] fields _ h2
    simp [optimizeManifest, processVal, setField_append _ _ _ hnone]
  · intro k hk
    exact processFields_lookup_excluded [] fields k hk

/-- Witness for C5 at a concrete manifest object. -/
theorem c5_witness :
    refFreeFields c5Fields = true ∧ lookupKey c5Fields "stringTable" = none ∧
    (decodeRefs (processVal [] (.obj c5Fields)).1 (processVal [] (.obj c5Fields)).2 =
        .obj c5Fields ∧
     optimizeManifest (.obj c5Fields) =
       .obj ((processFields [] c5Fields).2 ++
         [("stringTable", .arr ((processFields [] c5Fields).1.map JVal.str))]) ∧
     ∀ k, k ∈ excludedKeys →
       lookupKey (processFields [] c5Fields).2 k = lookupKey c5Fields k) :=
  ⟨by rfl, by rfl, c5_theorem c5Fields (by rfl) (by rfl)⟩

/-- C10: the interning exclusion is by key name at every nesting depth.  For
    every object processed anywhere by the transform (the quantified table
    covers every recursive call context), a field whose key is one of version /
    generated / rootPath is passed through verbatim at its position and its
    value is never interned. -/
theorem c10_theorem (tbl : List String) (fields : List (String × JVal)) (i : Nat)
    (k : String) (v : JVal) (hget : fields[i]? = some (k, v)) (hk : k ∈ excludedKeys) :
    ∃ fields', (processVal tbl (.obj fields)).2 = .obj fields' ∧
      fields'.length = fields.length ∧ fields'[i]? = some (k, v) := by
  refine ⟨(processFields tbl fields).2, by simp [processVal],
    processFields_length tbl fields, ?_⟩
  exact processFields_get_excluded tbl fields i k v hget hk

/-- Witness for C10 at a concrete nested position. -/
theorem c10_witness :
    c10Fields[1]? = some ("rootPath", .str "/proj") ∧ "rootPath" ∈ excludedKeys ∧
    ∃ fields', (processVal ["seen"] (.obj c10Fields)).2 = .obj fields' ∧
      fields'.length = c10Fields.length ∧
      fields'[1]? = some ("rootPath", .str "/proj") :=
  ⟨by rfl, by decide, c10_theorem ["seen"] c10Fields 1 "rootPath" (.str "/proj")
    (by rfl) (by decide)⟩

theorem fnSymbolNames_nil : fnSymbolNames [] = [] := rfl

theorem fnSymbolNames_append (a b : List SSymbol) :
    fnSymbolNames (a ++ b) = fnSymbolNames a ++ fnSymbolNames b := by
  simp [fnSymbolNames, List.filter_append]

theorem fnSymbolNames_mjoin (a b : Meta) :
    fnSymbolNames (mjoin a b).symbols =
      fnSymbolNames a.symbols ++ fnSymbolNames b.symbols := by
  simp [mjoin, fnSymbolNames_append]

theorem fnSymbolNames_cons_false {s : SSymbol} (h : isFnSym s = false)
    (l : List SSymbol) : fnSymbolNames (s :: l) = fnSymbolNames l := by
  simp [fnSymbolNames, List.filter_cons, h]

theorem fnSymbolNames_cons_true {s : SSymbol} (h : isFnSym s = true)
    (l : List SSymbol) : fnSymbolNames (s :: l) = s.name :: fnSymbolNames l := by
  simp [fnSymbolNames, List.filter_cons, h]

theorem isFnSym_fnSymbol (n : String) (ps : List Pat) (rt : Option TNode)
    (loc : Option LocInfo) : isFnSym (fnSymbol n ps rt loc) = true := rfl

theorem fnSymbolNames_fnSymbol (n : String) (ps : List Pat) (rt : Option TNode)
    (loc : Option LocInfo) : fnSymbolNames [fnSymbol n ps rt loc] = [some n] := by
  rw [fnSymbolNames_cons_true (isFnSym_fnSymbol n ps rt loc)]
  rfl

theorem isFnSym_constSymbol (n : String) (loc : Option LocInfo) :
    isFnSym (constSymbol n loc) = false := rfl

theorem isFnSym_classSymbol (n : String) (sup : Option Expr)
    (members : List CMember) (loc : Option LocInfo) :
    isFnSym (classSymbol n sup members loc) = false := rfl

theorem isFnSym_exportSymbol (e : ESpec) : isFnSym (exportSymbol e) = false := by
  cases e
  rfl

theorem fnSymbolNames_exports : ∀ specs : List ESpec,
    fnSymbolNames (specs.map exportSymbol) = []
  | [] => rfl
  | e :: rest => by
    rw [List.map_cons, fnSymbolNames_cons_false (isFnSym_exportSymbol e)]
    exact fnSymbolNames_exports rest

theorem fnNames_dtorEmit : ∀ d : VDtor, fnSymbolNames (dtorEmit d).symbols = dtorFnName d
  | .mk (.pid n ta) (some (.arrowFn ps rt body)) loc => by
    simp [dtorEmit, dtorFnName, fnSymbolNames_fnSymbol]
  | .mk (.pid n ta) (some (.fnExpr i ps rt body)) loc => by
    simp [dtorEmit, dtorFnName, fnSymbolNames_fnSymbol]
  | .mk (.pid n ta) (some (.ident m)) loc => by
    simp [dtorEmit, dtorFnName, fnSymbolNames_cons_false (isFnSym_constSymbol n loc),
      fnSymbolNames_nil]
  | .mk (.pid n ta) (some (.strLit s)) loc => by
    simp [dtorEmit, dtorFnName, fnSymbolNames_cons_false (isFnSym_constSymbol n loc),
      fnSymbolNames_nil]
  | .mk (.pid n ta) (some (.numLit m)) loc => by
    simp [dtorEmit, dtorFnName, fnSymbolNames_cons_false (isFnSym_constSymbol n loc),
      fnSymbolNames_nil]
  | .mk (.pid n ta) (some (.call c args)) loc => by
    simp [dtorEmit, dtorFnName, fnSymbolNames_cons_false (isFnSym_constSymbol n loc),
      fnSymbolNames_nil]
  | .mk (.pid n ta) (some (.otherExpr es)) loc => by
    simp [dtorEmit, dtorFnName, fnSymbolNames_cons_false (isFnSym_constSymbol n loc),
      fnSymbolNames_nil]
  | .mk (.pid n ta) none loc => by simp [dtorEmit, dtorFnName, memp, fnSymbolNames_nil]
  | .mk (.assign l r) init loc => by
    cases init <;> simp [dtorEmit, dtorFnName, memp, fnSymbolNames_nil]
  | .mk (.objPat props ta) init loc => by
    cases init <;> simp [dtorEmit, dtorFnName, memp, fnSymbolNames_nil]
  | .mk (.arrPat elems ta) init loc => by
    cases init <;> simp [dtorEmit, dtorFnName, memp, fnSymbolNames_nil]
  | .mk (.rest arg ta) init loc => by
    cases init <;> simp [dtorEmit, dtorFnName, memp, fnSymbolNames_nil]
  | .mk .exotic init loc => by
    cases init <;> simp [dtorEmit, dtorFnName, memp, fnSymbolNames_nil]

theorem fnNames_requireEmit (callee : Expr) (args : List Expr) :
    fnSymbolNames (requireEmit callee args).symbols = [] := by
  unfold requireEmit
  split
  · rfl
  · rfl

mutual

theorem fnNames_visitStmts (ss : List Stmt) :
    fnSymbolNames (visitStmts ss).symbols = dfnStmts ss := by
  match ss with
  | [] => rfl
  | s :: rest =>
    simp only [visitStmts, dfnStmts, fnSymbolNames_mjoin,
      fnNames_visitStmt s, fnNames_visitStmts rest]
termination_by sizeOf ss

theorem fnNames_visitStmt (s : Stmt) :
    fnSymbolNames (visitStmt s).symbols = dfnStmt s := by
  match s with
  | .importDecl source specs => rfl
  | .funcDecl id ps rt body loc =>
    match id with
    | some n =>
      simp only [visitStmt, dfnStmt, fnSymbolNames_mjoin,
        fnNames_visitPats ps, fnNames_visitStmts body]
      simp [fnSymbolNames_fnSymbol]
    | none =>
      simp only [visitStmt, dfnStmt, fnSymbolNames_mjoin,
        fnNames_visitPats ps, fnNames_visitStmts body]
      simp [memp, fnSymbolNames_nil]
  | .varDecl ds =>
    simp only [visitStmt, dfnStmt]
    exact fnNames_visitDtors ds
  | .classDecl id sup members loc =>
    match id with
    | some n =>
      simp only [visitStmt, dfnStmt, fnSymbolNames_mjoin,
        fnNames_visitOptExpr sup, fnNames_visitMembers members]
      simp [fnSymbolNames_cons_false (isFnSym_classSymbol n sup members loc),
        fnSymbolNames_nil]
    | none =>
      simp only [visitStmt, dfnStmt, fnSymbolNames_mjoin,
        fnNames_visitOptExpr sup, fnNames_visitMembers members]
      simp [memp, fnSymbolNames_nil]
  | .exportNamed decl specs =>
    match decl with
    | some d =>
      simp only [visitStmt, dfnStmt, fnSymbolNames_mjoin, visitOptStmt, dfnOptStmt,
        fnNames_visitStmt d]
      simp [memp, fnSymbolNames_nil]
    | none =>
      simp only [visitStmt, dfnStmt, fnSymbolNames_mjoin, visitOptStmt, dfnOptStmt]
      simp [memp, fnSymbolNames_nil, fnSymbolNames_exports specs]
  | .exportDefault e =>
    simp only [visitStmt, dfnStmt, fnSymbolNames_mjoin, fnNames_visitExpr e]
    simp [fnSymbolNames_nil]
  | .exprStmt e =>
    simp only [visitStmt, dfnStmt]
    exact fnNames_visitExpr e
  | .block ss =>
    simp only [visitStmt, dfnStmt]
    exact fnNames_visitStmts ss
  | .ret e =>
    simp only [visitStmt, dfnStmt]
    exact fnNames_visitOptExpr e
termination_by sizeOf s

theorem fnNames_visitDtors (ds : List VDtor) :
    fnSymbolNames (visitDtors ds).symbols = dfnDtors ds := by
  match ds with
  | [] => rfl
  | d :: rest =>
    simp only [visitDtors, dfnDtors, fnSymbolNames_mjoin,
      fnNames_visitDtor d, fnNames_visitDtors rest]
termination_by sizeOf ds

theorem fnNames_visitDtor (d : VDtor) :
    fnSymbolNames (visitDtor d).symbols = dfnDtor d := by
  match d with
  | .mk id init loc =>
    simp only [visitDtor, dfnDtor, fnSymbolNames_mjoin,
      fnNames_visitPat id, fnNames_visitOptExpr init, fnNames_dtorEmit]
    simp [List.append_assoc]
termination_by sizeOf d

theorem fnNames_visitMembers (ms : List CMember) :
    fnSymbolNames (visitMembers ms).symbols = dfnMembers ms := by
  match ms with
  | [] => rfl
  | m :: rest =>
    simp only [visitMembers, dfnMembers, fnSymbolNames_mjoin,
      fnNames_visitMember m, fnNames_visitMembers rest]
termination_by sizeOf ms

theorem fnNames_visitMember (m : CMember) :
    fnSymbolNames (visitMember m).symbols = dfnMember m := by
  match m with
  | .method key st kind ps rt body loc =>
    simp only [visitMember, dfnMember, fnSymbolNames_mjoin,
      fnNames_visitKey key, fnNames_visitPats ps, fnNames_visitStmts body]
    simp [List.append_assoc]
  | .property key st ta value loc =>
    simp only [visitMember, dfnMember, fnSymbolNames_mjoin,
      fnNames_visitKey key, fnNames_visitOptExpr value]
  | .otherMember => rfl
termination_by sizeOf m

theorem fnNames_visitKey (k : Key) :
    fnSymbolNames (visitKey k).symbols = dfnKey k := by
  match k with
  | .kid n => rfl
  | .kstr s => rfl
  | .kcomputed e =>
    simp only [visitKey, dfnKey]
    exact fnNames_visitExpr e
termination_by sizeOf k

theorem fnNames_visitExprs (es : List Expr) :
    fnSymbolNames (visitExprs es).symbols = dfnExprs es := by
  match es with
  | [] => rfl
  | e :: rest =>
    simp only [visitExprs, dfnExprs, fnSymbolNames_mjoin,
      fnNames_visitExpr e, fnNames_visitExprs rest]
termination_by sizeOf es

theorem fnNames_visitExpr (e : Expr) :
    fnSymbolNames (visitExpr e).symbols = dfnExpr e := by
  match e with
  | .ident n => rfl
  | .strLit s => rfl
  | .numLit m => rfl
  | .call callee args =>
    simp only [visitExpr, dfnExpr, fnSymbolNames_mjoin,
      fnNames_visitExpr callee, fnNames_visitExprs args, fnNames_requireEmit]
    simp
  | .arrowFn ps rt body =>
    simp only [visitExpr, dfnExpr, fnSymbolNames_mjoin,
      fnNames_visitPats ps, fnNames_visitStmts body]
  | .fnExpr i ps rt body =>
    simp only [visitExpr, dfnExpr, fnSymbolNames_mjoin,
      fnNames_visitPats ps, fnNames_visitStmts body]
  | .otherExpr es =>
    simp only [visitExpr, dfnExpr]
    exact fnNames_visitExprs es
termination_by sizeOf e

theorem fnNames_visitOptExpr (e? : Option Expr) :
    fnSymbolNames (visitOptExpr e?).symbols = dfnOptExpr e? := by
  match e? with
  | none => rfl
  | some e =>
    simp only [visitOptExpr, dfnOptExpr]
    exact fnNames_visitExpr e
termination_by sizeOf e?

theorem fnNames_visitPats (ps : List Pat) :
    fnSymbolNames (visitPats ps).symbols = dfnPats ps := by
  match ps with
  | [] => rfl
  | p :: rest =>
    simp only [visitPats, dfnPats, fnSymbolNames_mjoin,
      fnNames_visitPat p, fnNames_visitPats rest]
termination_by sizeOf ps

theorem fnNames_visitPat (p : Pat) :
    fnSymbolNames (visitPat p).symbols = dfnPat p := by
  match p with
  | .pid n ta => rfl
  | .assign left right =>
    simp only [visitPat, dfnPat, fnSymbolNames_mjoin,
      fnNames_visitPat left, fnNames_visitExpr right]
  | .objPat props ta =>
    simp only [visitPat, dfnPat]
    exact fnNames_visitProps props
  | .arrPat elems ta =>
    simp only [visitPat, dfnPat]
    exact fnNames_visitOptPats elems
  | .rest arg ta =>
    simp only [visitPat, dfnPat]
    exact fnNames_visitPat arg
  | .exotic => rfl
termination_by sizeOf p

theorem fnNames_visitProps (ps : List ObjPatProp) :
    fnSymbolNames (visitProps ps).symbols = dfnProps ps := by
  match ps with
  | [] => rfl
  | p :: rest =>
    simp only [visitProps, dfnProps, fnSymbolNames_mjoin,
      fnNames_visitProp p, fnNames_visitProps rest]
termination_by sizeOf ps

theorem fnNames_visitProp (p : ObjPatProp) :
    fnSymbolNames (visitProp p).symbols = dfnProp p := by
  match p with
  | .prop key value =>
    simp only [visitProp, dfnProp, fnSymbolNames_mjoin,
      fnNames_visitKey key, fnNames_visitPat value]
  | .restProp arg =>
    simp only [visitProp, dfnProp]
    exact fnNames_visitPat arg
termination_by sizeOf p

theorem fnNames_visitOptPats (es : List (Option Pat)) :
    fnSymbolNames (visitOptPats es).symbols = dfnOptPats es := by
  match es with
  | [] => rfl
  | e :: rest =>
    simp only [visitOptPats, dfnOptPats, fnSymbolNames_mjoin,
      fnNames_visitOptPat e, fnNames_visitOptPats rest]
termination_by sizeOf es

theorem fnNames_visitOptPat (e? : Option Pat) :
    fnSymbolNames (visitOptPat e?).symbols = dfnOptPat e? := by
  match e? with
  | none => rfl
  | some p =>
    simp only [visitOptPat, dfnOptPat]
    exact fnNames_visitPat p
termination_by sizeOf e?

end

/-- C1 counterexample: for `const x = require('path')`, extraction does push a
    Symbol for the binding `x` — a constant Symbol named "x" — so the claim's
    "no Symbol at all for the binding x" clause is false on the code, even
    though the single require Dependency is as claimed. -/
theorem c1_counterexample :
    (parseFile progReq).dependencies = [requireDep "path"] ∧
    (parseFile progReq).symbols.map SSymbol.name = [some "x"] ∧
    (parseFile progReq).symbols.length = 1 :=
  ⟨rfl, rfl, rfl⟩

/-- C1 amended theorem: `const x = require('path')` yields exactly one require
    Dependency with source "path" and exactly one constant Symbol named "x"
    (the VariableDeclarator handler's constant-binding arm fires because the
    initializer is a call expression, not a function). -/
theorem c1_theorem :
    parseFile progReq = ⟨[constSymbol "x" none], [requireDep "path"], false⟩ := rfl

/-- C2 counterexample: the single Symbol extracted for
    `export function add(a, b) { return a + b; }` carries the discriminator
    string "fn", not "function" as the claim states. -/
theorem c2_counterexample :
    (parseFile progAdd).symbols.map SSymbol.type = [some "fn"] ∧
    ((some "fn" : Option String) == some "function") = false := by
  exact ⟨rfl, by decide⟩

/-- C2 amended theorem: `export function add(a, b) { return a + b; }` yields
    exactly one Symbol, named "add", with discriminator "fn" (not "function"),
    params [{a, any}, {b, any}] in order, and returnType "any". -/
theorem c2_theorem :
    parseFile progAdd =
      ⟨[{ name := some "add", localName := none, type := some "fn",
          params := some
            [some { name := some "a", type := some "any", hasDefault := none,
                    properties := none, elements := none },
             some { name := some "b", type := some "any", hasDefault := none,
                    properties := none, elements := none }],
          returnType := some "any", fields := none, methods := none,
          extendsName := none, loc := none }],
       [], false⟩ := rfl

/-- C3 counterexample: a named function declaration nested inside another
    function's body yields a function Symbol too — the traversal is deep, so
    the program `function outer() { function inner() {} }` yields two
    Symbols, not one as the top-level-only claim predicts. -/
theorem c3_counterexample :
    (parseFile progNest).symbols.map SSymbol.name = [some "outer", some "inner"] ∧
    (parseFile progNest).symbols.length = 2 := ⟨rfl, rfl⟩

/-- C3 amended theorem: for every file tree, the function-typed Symbols are
    emitted exactly for the named function declarations occurring at any
    depth of the tree together with the identifier bindings of arrow/function
    expressions, in depth-first traversal order; anonymous function
    declarations yield no Symbol. -/
theorem c3_theorem (ast : List Stmt) :
    fnSymbolNames (parseFile ast).symbols = dfnStmts ast :=
  fnNames_visitStmts ast

/-- C8: the parameter classifier is total: every parameter node falls into
    exactly one of the five source-order shape classes with the recorded
    output (in particular an AssignmentPattern wins over the destructuring
    rules whatever its left side is), and a node matching none of the five
    shapes yields the sentinel record {name: "unknown"} rather than an
    error. -/
theorem c8_theorem (p : Pat) :
    (∃ n ta, p = .pid n ta ∧ extractParamInfo p =
        { name := some n, type := some (extractTypeAnn ta), hasDefault := none,
          properties := none, elements := none }) ∨
    (∃ l r, p = .assign l r ∧ (extractParamInfo p).hasDefault = some true ∧
        (extractParamInfo p).name =
          some (match l with | .pid n _ => n | _ => "destructured")) ∨
    (∃ props ta, p = .objPat props ta ∧ (extractParamInfo p).name = some "objectPattern") ∨
    (∃ elems ta, p = .arrPat elems ta ∧ (extractParamInfo p).name = some "arrayPattern") ∨
    (∃ arg ta, p = .rest arg ta ∧ (extractParamInfo p).name =
        some (match arg with | .pid n _ => "..." ++ n | _ => "...rest")) ∨
    (p = .exotic ∧ extractParamInfo p =
        { name := some "unknown", type := none, hasDefault := none,
          properties := none, elements := none }) := by
  match p with
  | .pid n ta => exact Or.inl ⟨n, ta, rfl, rfl⟩
  | .assign l r => exact Or.inr (Or.inl ⟨l, r, rfl, rfl, rfl⟩)
  | .objPat props ta => exact Or.inr (Or.inr (Or.inl ⟨props, ta, rfl, rfl⟩))
  | .arrPat elems ta => exact Or.inr (Or.inr (Or.inr (Or.inl ⟨elems, ta, rfl, rfl⟩)))
  | .rest arg ta => exact Or.inr (Or.inr (Or.inr (Or.inr (Or.inl ⟨arg, ta, rfl, rfl⟩))))
  | .exotic => exact Or.inr (Or.inr (Or.inr (Or.inr (Or.inr ⟨rfl, rfl⟩))))

/-- C9: type-annotation resolution is total over any input (extractTypeAnn is
    a total function by construction): an absent annotation node resolves to
    "any", and every node whose unwrapped annotation is not a
    TSTypeAnnotation — the unrecognized shapes, including Flow annotations —
    resolves to "any". -/
theorem c9_theorem :
    extractTypeAnn none = "any" ∧
    ∀ n : TNode, isTSTypeAnnB ((tyAnnField n).getD n) = false →
      extractTypeAnn (some n) = "any" := by
  refine ⟨rfl, ?_⟩
  intro n h
  simp only [extractTypeAnn]
  cases hx : (tyAnnField n).getD n with
  | tsTypeAnn f =>
    rw [hx] at h
    simp [isTSTypeAnnB] at h
  | flowTypeAnn f => simp [hx]
  | tsTypeNode t => simp [hx]
  | otherNode f => simp [hx]

/-- Witness for C9 at a concrete unrecognized annotation node. -/
theorem c9_witness :
    isTSTypeAnnB ((tyAnnField (TNode.otherNode none)).getD (TNode.otherNode none)) = false ∧
    extractTypeAnn (some (TNode.otherNode none)) = "any" :=
  ⟨rfl, c9_theorem.2 (TNode.otherNode none) rfl⟩

theorem addFile_files (rel : String → String → String) (base : String → String)
    (rootPath : String) : ∀ (l : List FileResult) (acc : BManifest),
    (l.foldl (addFile rel base rootPath) acc).files =
      acc.files ++ l.map (mkFileManifest rel base rootPath)
  | [], acc => by simp
  | fd :: rest, acc => by
    rw [List.foldl_cons, addFile_files rel base rootPath rest, List.map_cons]
    simp [addFile, List.append_assoc]

theorem addFile_totalSymbols (rel : String → String → String) (base : String → String)
    (rootPath : String) : ∀ (l : List FileResult) (acc : BManifest),
    (l.foldl (addFile rel base rootPath) acc).stats.totalSymbols =
      acc.stats.totalSymbols +
        (l.map (fun fd => (mkFileManifest rel base rootPath fd).symbols.length)).sum
  | [], acc => by simp
  | fd :: rest, acc => by
    rw [List.foldl_cons, addFile_totalSymbols rel base rootPath rest, List.map_cons]
    simp [addFile, Nat.add_assoc]

theorem addFile_totalDeps (rel : String → String → String) (base : String → String)
    (rootPath : String) : ∀ (l : List FileResult) (acc : BManifest),
    (l.foldl (addFile rel base rootPath) acc).stats.totalDependencies =
      acc.stats.totalDependencies +
        (l.map (fun fd => (mkFileManifest rel base rootPath fd).dependencies.length)).sum
  | [], acc => by simp
  | fd :: rest, acc => by
    rw [List.foldl_cons, addFile_totalDeps rel base rootPath rest, List.map_cons]
    simp [addFile, Nat.add_assoc]

/-- C4: whenever buildManifest returns a manifest (which it does exactly for
    non-empty array inputs), Stats.totalSymbols is the sum over all
    FileManifests of the length of their symbols sequence, and
    Stats.totalDependencies the sum of the dependency lengths. -/
theorem c4_theorem (rel : String → String → String) (base : String → String)
    (nowISO rootPath : String) (l : List FileResult) (m : BManifest)
    (h : buildManifest rel base nowISO (.arr l) rootPath = .ok m) :
    m.stats.totalSymbols = (m.files.map (fun f => f.symbols.length)).sum ∧
    m.stats.totalDependencies = (m.files.map (fun f => f.dependencies.length)).sum := by
  unfold buildManifest at h
  by_cases hl : l.isEmpty
  · simp [hl] at h
  · simp [hl] at h
    subst h
    constructor
    · rw [addFile_totalSymbols rel base rootPath l _,
        addFile_files rel base rootPath l _]
      simp only [initManifest, List.nil_append, List.map_map]
      rw [Nat.zero_add]
      rfl
    · rw [addFile_totalDeps rel base rootPath l _,
        addFile_files rel base rootPath l _]
      simp only [initManifest, List.nil_append, List.map_map]
      rw [Nat.zero_add]
      rfl

/-- Witness for C4 at a concrete single-file input. -/
theorem c4_witness :
    buildManifest (fun _ p => p) (fun p => p) "t0" (.arr [c4File]) "/r" = .ok c4Manifest ∧
    (c4Manifest.stats.totalSymbols =
        (c4Manifest.files.map (fun f => f.symbols.length)).sum ∧
     c4Manifest.stats.totalDependencies =
        (c4Manifest.files.map (fun f => f.dependencies.length)).sum) :=
  ⟨rfl, c4_theorem (fun _ p => p) (fun p => p) "t0" "/r" [c4File] c4Manifest rfl⟩

/-- C7: buildManifest rejects an empty array and a non-array input by raising
    UserInputError('No files to process'); in both cases the result is that
    error, so no manifest is produced for an empty input. -/
theorem c7_theorem :
    ∀ (rel : String → String → String) (base : String → String) (nowISO rootPath : String),
      buildManifest rel base nowISO (.arr []) rootPath =
        .error (.userInput "No files to process") ∧
      buildManifest rel base nowISO .notArr rootPath =
        .error (.userInput "No files to process") :=
  fun _ _ _ _ => ⟨rfl, rfl⟩

theorem map_pprop_eta : ∀ l : List PProp,
    (l.map (fun pr => { name := pr.name, type := pr.type : PProp })) = l
  | [] => rfl
  | pr :: rest => by simp [map_pprop_eta rest]

theorem simplifyParam_idem (p? : Option SParam) :
    simplifyParam (simplifyParam p?) = simplifyParam p? := by
  match p? with
  | none => rfl
  | some p =>
    by_cases hd : p.hasDefault = some true <;>
      by_cases ho : p.name = some "objectPattern" ∧ p.properties.isSome <;>
        by_cases ha : p.name = some "arrayPattern" ∧ p.elements.isSome <;>
          simp [simplifyParam, hd, ho, ha, map_pprop_eta]

theorem simplifyFieldRec_idem (f : SField) :
    simplifyFieldRec (simplifyFieldRec f) = simplifyFieldRec f := rfl

theorem truthyStr_none : truthyStr none = false := rfl

theorem simplifyMethodRec_idem (m : SMethod) :
    simplifyMethodRec (simplifyMethodRec m) = simplifyMethodRec m := by
  simp [simplifyMethodRec]
  exact fun a _ => simplifyParam_idem a

theorem simplifySymbol_idem (s : SSymbol) :
    simplifySymbol (simplifySymbol s) = simplifySymbol s := by
  by_cases hf : s.type = some "fn"
  · simp [simplifySymbol, hf]
    exact fun a _ => simplifyParam_idem a
  · by_cases hc : s.type = some "class"
    · by_cases he : truthyStr s.extendsName
      · simp [simplifySymbol, hf, hc, he]
        exact ⟨fun a _ => simplifyFieldRec_idem a, fun a _ => simplifyMethodRec_idem a⟩
      · simp [simplifySymbol, hf, hc, he, truthyStr_none]
        exact ⟨fun a _ => simplifyFieldRec_idem a, fun a _ => simplifyMethodRec_idem a⟩
    · by_cases hx : s.type = some "export"
      · simp [simplifySymbol, hf, hc, hx]
      · simp [simplifySymbol, hf, hc, hx]

theorem simplifyFile_idem (f : LFile) : simplifyFile (simplifyFile f) = simplifyFile f := by
  simp [simplifyFile]
  exact fun a _ => simplifySymbol_idem a

/-- C6: the LLM simplification is idempotent: for every manifest m,
    optimizeForLLM (optimizeForLLM m) = optimizeForLLM m — re-running the
    projection on an already-simplified manifest changes nothing. -/
theorem c6_theorem (m : LManifest) :
    optimizeForLLM (optimizeForLLM m) = optimizeForLLM m := by
  simp [optimizeForLLM]
  exact fun a _ => simplifyFile_idem a

end LLMDist
